import Mathlib

/-!
Verification of the scope-rs audio pipeline core against its specification.

We give a shallow embedding of the lock-free sample buffer
(src/audio/buffer.rs) and the file-playback engine (src/audio/file.rs).
Shared mutable state (the SPSC ring channel, the snapshot, the atomics)
is modelled as explicit state passing over a single system-state record;
f32 scalars are modelled as exact rationals; the filesystem / codec
collaborators of the playback engine are abstracted as `Except` inputs
mirroring the exact sequence of fallible calls in the source.
-/

namespace ScopeRs

/-- An XY sample: one stereo frame, left = x, right = y (f32 in the
source, modelled as exact rationals). Mirrors struct XYSample. -/
structure XYSample where
  x : ℚ
  y : ℚ
deriving DecidableEq, Repr

/-- Mirrors XYSample::new. -/
def XYSample.new (x y : ℚ) : XYSample := ⟨x, y⟩

/-- Mirrors XYSample::default (f32 default is 0.0). -/
def XYSample.zero : XYSample := ⟨0, 0⟩

instance : Inhabited XYSample := ⟨XYSample.zero⟩

/-- Combined state of one SampleBuffer system: the HeapRb ring channel
(front of the list = oldest element), the shared samples_written
counter, the consumer's snapshot (write cursor included), and the two
once-takeable handle slots held in the buffer's mutexes.  The Rust
splits this state across SampleProducer / SampleConsumer / SampleBuffer
with the ring and the counter shared through Arc; a single record with
explicit state passing is the standard pure embedding of that sharing. -/
structure BufState where
  /-- Fixed capacity of the HeapRb, set to capacity * 2 at creation. -/
  ringCap : Nat
  /-- Current contents of the ring channel, oldest first. -/
  ring : List XYSample
  /-- The shared AtomicU64 samples_written counter. -/
  samplesWritten : Nat
  /-- SampleConsumer.snapshot (a Vec of length capacity). -/
  snapshot : List XYSample
  /-- SampleConsumer.capacity = the display capacity. -/
  capacity : Nat
  /-- SampleConsumer.write_pos, the circular write cursor. -/
  writePos : Nat
  /-- Whether the Mutex<Option<SampleProducer>> still holds the producer. -/
  producerSlot : Bool
  /-- Whether the Mutex<Option<SampleConsumer>> still holds the consumer. -/
  consumerSlot : Bool
deriving DecidableEq, Repr

/-- HeapRb try_push: append when there is room, silently drop the new
element when the ring is full (ringbuf returns Err, the caller ignores it). -/
def tryPush (cap : Nat) (r : List XYSample) (s : XYSample) : List XYSample :=
  if r.length < cap then r ++ [s] else r

/-- SampleProducer::push: try_push the sample (ignored on overflow) and
increment the shared counter by one unconditionally. -/
def SampleProducer.push (st : BufState) (s : XYSample) : BufState :=
  { st with
    ring := tryPush st.ringCap st.ring s
    samplesWritten := st.samplesWritten + 1 }

/-- SampleProducer::push_slice: try_push every sample of the slice, then
add the slice length to the shared counter. -/
def SampleProducer.pushSlice (st : BufState) (xs : List XYSample) : BufState :=
  let st1 := xs.foldl (fun a s => { a with ring := tryPush a.ringCap a.ring s }) st
  { st1 with samplesWritten := st1.samplesWritten + xs.length }

/-- One iteration of the drain loop body in SampleConsumer::update:
write the popped sample at write_pos and advance the cursor mod capacity. -/
def drainStep (cap : Nat) (acc : List XYSample × Nat) (s : XYSample) :
    List XYSample × Nat :=
  (acc.1.set acc.2 s, (acc.2 + 1) % cap)

/-- SampleConsumer::update: drain every currently available sample from
the ring channel into the snapshot at the write cursor. -/
def SampleConsumer.update (st : BufState) : BufState :=
  let r := st.ring.foldl (drainStep st.capacity) (st.snapshot, st.writePos)
  { st with ring := [], snapshot := r.1, writePos := r.2 }

/-- The read loop of SampleConsumer::get_samples: result[i] =
snapshot[(write_pos + i) % capacity] for i in 0..capacity. -/
def readSeq (cap : Nat) (snap : List XYSample) (wp : Nat) : List XYSample :=
  (List.range cap).map (fun i => snap.getD ((wp + i) % cap) XYSample.zero)

/-- SampleConsumer::get_samples: read the whole snapshot starting at the
write cursor (the oldest slot) and wrapping mod capacity. Pure: takes
the state by shared reference in the source and mutates nothing. -/
def SampleConsumer.getSamples (st : BufState) : List XYSample :=
  readSeq st.capacity st.snapshot st.writePos

/-- SampleConsumer::samples_written. -/
def SampleConsumer.samplesWritten (st : BufState) : Nat := st.samplesWritten

/-- SampleBuffer::new(capacity): ring channel of capacity 2 * capacity,
zeroed snapshot of length capacity, write cursor 0, both handles present. -/
def SampleBuffer.new (capacity : Nat) : BufState :=
  { ringCap := capacity * 2
    ring := []
    samplesWritten := 0
    snapshot := List.replicate capacity XYSample.zero
    capacity := capacity
    writePos := 0
    producerSlot := true
    consumerSlot := true }

/-- SampleBuffer::take_producer: Option::take on the mutex-held slot —
returns the handle if still present and leaves the slot empty. -/
def SampleBuffer.takeProducer (st : BufState) : Option Unit × BufState :=
  ((if st.producerSlot then some () else none), { st with producerSlot := false })

/-- SampleBuffer::take_consumer. -/
def SampleBuffer.takeConsumer (st : BufState) : Option Unit × BufState :=
  ((if st.consumerSlot then some () else none), { st with consumerSlot := false })

/-- SampleBuffer::push (compatibility API): if the producer handle is
still in the buffer, push through it and return true; if the handle has
been taken (the mutex holds None) the call is a no-op returning false. -/
def SampleBuffer.push (st : BufState) (s : XYSample) : Bool × BufState :=
  if st.producerSlot then (true, SampleProducer.push st s) else (false, st)

/-- SampleBuffer::get_samples (compatibility API): if the consumer handle
is still in the buffer, run update then get_samples through it; if the
handle has been taken, return a capacity-length vector of default
(zero) samples. -/
def SampleBuffer.getSamples (st : BufState) : List XYSample × BufState :=
  if st.consumerSlot then
    let st1 := SampleConsumer.update st
    (SampleConsumer.getSamples st1, st1)
  else (List.replicate st.capacity XYSample.zero, st)

/-- Push a list of samples one by one through SampleProducer::push
(the producer-handle path used by the capture callback). -/
def pushAll (st : BufState) (xs : List XYSample) : BufState :=
  xs.foldl SampleProducer.push st

/-- Repeated try_push, the ring-contents part of pushAll / pushSlice. -/
def pushList (cap : Nat) (r : List XYSample) (xs : List XYSample) : List XYSample :=
  xs.foldl (tryPush cap) r

/-- The operations a client can perform on one SampleBuffer system,
used to state counter monotonicity over arbitrary call sequences. -/
inductive BufOp where
  | push (s : XYSample)
  | pushSlice (xs : List XYSample)
  | update
  | takeProducer
  | takeConsumer
  | compatPush (s : XYSample)
  | compatGet
deriving DecidableEq, Repr

/-- State transition of a single buffer operation. -/
def BufOp.apply (st : BufState) : BufOp → BufState
  | .push s => SampleProducer.push st s
  | .pushSlice xs => SampleProducer.pushSlice st xs
  | .update => SampleConsumer.update st
  | .takeProducer => (SampleBuffer.takeProducer st).2
  | .takeConsumer => (SampleBuffer.takeConsumer st).2
  | .compatPush s => (SampleBuffer.push st s).2
  | .compatGet => (SampleBuffer.getSamples st).2

/-- Run a sequence of buffer operations. -/
def runOps (st : BufState) (ops : List BufOp) : BufState :=
  ops.foldl BufOp.apply st

/-! ### The file playback engine (src/audio/file.rs) -/

/-- Mirrors enum FileError. -/
inductive FileError where
  | IoError (msg : String)
  | ProbeError (msg : String)
  | NoTracks
  | UnsupportedCodec
  | DecoderError (msg : String)
deriving DecidableEq, Repr

/-- Mirrors enum PlaybackState. -/
inductive PlaybackState where
  | Stopped
  | Playing
  | Paused
deriving DecidableEq, Repr

/-- Mirrors struct AudioFileInfo (Duration as an exact rational number
of seconds). -/
structure AudioFileInfo where
  path : String
  filename : String
  duration : ℚ
  sample_rate : Nat
  channels : Nat
  format : String
deriving DecidableEq, Repr

/-- Mirrors struct AudioFilePlayer.  The f32 scalars are exact
rationals; thread_handle.is_some() is a Bool; the output stream and the
audio-output ring producer are presence flags (their contents belong to
the external cpal collaborator). -/
structure AudioFilePlayer where
  info : Option AudioFileInfo
  state : PlaybackState
  position : Nat
  total_samples : Nat
  sample_rate : Nat
  is_running : Bool
  threadHandle : Bool
  audioProducerPresent : Bool
  outputStreamPresent : Bool
  volume_atomic : ℚ
  speed : ℚ
  volume : ℚ
  loop_playback : Bool
  status : String
  waveform : List (ℚ × ℚ)
deriving DecidableEq, Repr

/-- Mirrors AudioFilePlayer::new. -/
def AudioFilePlayer.new : AudioFilePlayer :=
  { info := none
    state := .Stopped
    position := 0
    total_samples := 0
    sample_rate := 44100
    is_running := false
    threadHandle := false
    audioProducerPresent := false
    outputStreamPresent := false
    volume_atomic := 1
    speed := 1
    volume := 1
    loop_playback := false
    status := "No file loaded"
    waveform := [] }

/-- Mirrors AudioFilePlayer::stop: clear the running flag, force the
state to Stopped, join and drop the decode thread, tear down the output
stream and the audio producer, reset the position, set the status. -/
def AudioFilePlayer.stop (p : AudioFilePlayer) : AudioFilePlayer :=
  { p with
    is_running := false
    state := .Stopped
    threadHandle := false
    outputStreamPresent := false
    audioProducerPresent := false
    position := 0
    status := if p.info.isSome then "Stopped" else "No file loaded" }

/-- The metadata AudioFilePlayer::load extracts from a successful open +
probe + track selection (sample rate, channel count, duration and frame
count with their unwrap_or defaults already applied, the codec format
name and the file name). -/
structure ProbedMeta where
  filename : String
  sample_rate : Nat
  channels : Nat
  duration : ℚ
  n_frames : Nat
  formatName : String
deriving DecidableEq, Repr

/-- Mirrors AudioFilePlayer::load.  The fallible collaborator calls are
abstracted as Except inputs in the exact order the source performs
them: openProbe covers File::open, the probe, and the track search (all
of which fail before any player field other than the stop effects is
written), and waveformRes covers generate_waveform (which runs after
info, total_samples, sample_rate and position have been updated). -/
def AudioFilePlayer.load (p : AudioFilePlayer) (path : String)
    (openProbe : Except FileError ProbedMeta)
    (waveformRes : Except FileError (List (ℚ × ℚ))) :
    Except FileError Unit × AudioFilePlayer :=
  let p1 := p.stop
  match openProbe with
  | .error e => (.error e, p1)
  | .ok md =>
    let p2 := { p1 with
      info := some { path := path
                     filename := md.filename
                     duration := md.duration
                     sample_rate := md.sample_rate
                     channels := md.channels
                     format := md.formatName }
      total_samples := md.n_frames
      sample_rate := md.sample_rate
      position := 0 }
    match waveformRes with
    | .error e => (.error e, p2)
    | .ok w =>
      (.ok (), { p2 with waveform := w, status := "Loaded: " ++ md.filename })

/-- Mirrors AudioFilePlayer::position_fraction: guarded division of the
position atomic by the total frame count. -/
def AudioFilePlayer.position_fraction (p : AudioFilePlayer) : ℚ :=
  if p.total_samples = 0 then 0
  else (p.position : ℚ) / (p.total_samples : ℚ)

/-- Mirrors AudioFilePlayer::position_duration (seconds as a rational). -/
def AudioFilePlayer.position_duration (p : AudioFilePlayer) : ℚ :=
  (p.position : ℚ) / (p.sample_rate : ℚ)

/-- Mirrors AudioFilePlayer::seek: clamp the fraction to [0, 1],
multiply by the total frame count and truncate to an integer frame
index (the `as u64` cast of a non-negative f32 is the floor). -/
def AudioFilePlayer.seek (p : AudioFilePlayer) (fraction : ℚ) : AudioFilePlayer :=
  let f := max 0 (min fraction 1)
  let target : Nat := ⌊(p.total_samples : ℚ) * f⌋.toNat
  { p with position := target }

/-- Mirrors AudioFilePlayer::has_file. -/
def AudioFilePlayer.has_file (p : AudioFilePlayer) : Bool :=
  p.info.isSome

/-! ### Lemmas about the ring channel and the snapshot drain -/

theorem readSeq_length (cap : Nat) (snap : List XYSample) (wp : Nat) :
    (readSeq cap snap wp).length = cap := by
  simp [readSeq]

/-- Reduction of a mod inside a two-capacity window. -/
theorem mod_window (cap a : Nat) (h : a < 2 * cap) :
    a % cap = if a < cap then a else a - cap := by
  split
  · exact Nat.mod_eq_of_lt (by assumption)
  · have hc : cap ≤ a := Nat.le_of_not_lt (by assumption)
    rw [Nat.mod_eq_sub_mod hc, Nat.mod_eq_of_lt (by omega)]

/-- One step of the drain loop shifts the read sequence left by one and
appends the newly written sample at the newest end. -/
theorem readSeq_set_step (cap : Nat) (snap : List XYSample) (wp : Nat)
    (x : XYSample) (hlen : snap.length = cap) (hwp : wp < cap) :
    readSeq cap (snap.set wp x) ((wp + 1) % cap) =
      (readSeq cap snap wp).drop 1 ++ [x] := by
  have hcap : 0 < cap := by omega
  apply List.ext_getElem
  · simp [readSeq]
    omega
  · intro i hi hi'
    simp only [readSeq, List.getElem_map, List.getElem_range,
      List.length_map, List.length_range] at hi ⊢
    have hmod : ((wp + 1) % cap + i) % cap = (wp + 1 + i) % cap := by
      rw [Nat.mod_add_mod]
    rw [hmod]
    have hwin : (wp + 1 + i) % cap
        = if wp + 1 + i < cap then wp + 1 + i else wp + 1 + i - cap :=
      mod_window cap _ (by omega)
    by_cases hlast : i = cap - 1
    · -- the newest slot: reads the freshly written sample
      have hidx : (wp + 1 + i) % cap = wp := by
        rw [hwin]; split <;> omega
      rw [hidx]
      have hset : (snap.set wp x).getD wp XYSample.zero = x := by
        rw [List.getD_eq_getElem _ _ (by simpa [hlen] using hwp)]
        exact List.getElem_set_self (by simpa [hlen] using hwp)
      rw [hset, List.getElem_append_right (by simp [readSeq]; omega)]
      simp [readSeq]
    · -- older slots: unchanged, shifted by one
      have hi2 : i < cap - 1 := by omega
      have hne : wp ≠ (wp + 1 + i) % cap := by
        rw [hwin]; split <;> omega
      have hlt : (wp + 1 + i) % cap < cap := Nat.mod_lt _ hcap
      rw [List.getElem_append_left (by simp [readSeq]; omega)]
      simp only [List.getElem_drop]
      have hgd : (snap.set wp x).getD ((wp + 1 + i) % cap) XYSample.zero =
          snap.getD ((wp + 1 + i) % cap) XYSample.zero := by
        rw [List.getD_eq_getElem _ _ (by simpa [hlen] using hlt),
            List.getD_eq_getElem _ _ (by simpa [hlen] using hlt)]
        exact List.getElem_set_ne hne _
      rw [hgd]
      simp only [readSeq, List.getElem_map, List.getElem_range]
      congr 2
      omega

/-- Draining a list r into the snapshot yields the read sequence equal to
the last cap elements of the old read sequence followed by r, with the
snapshot length and the cursor bound preserved. -/
theorem drain_foldl (cap : Nat) (r : List XYSample) :
    ∀ (snap : List XYSample) (wp : Nat), snap.length = cap → wp < cap →
      readSeq cap (r.foldl (drainStep cap) (snap, wp)).1
          (r.foldl (drainStep cap) (snap, wp)).2
        = (readSeq cap snap wp ++ r).drop r.length ∧
      (r.foldl (drainStep cap) (snap, wp)).1.length = cap ∧
      (r.foldl (drainStep cap) (snap, wp)).2 < cap := by
  induction r with
  | nil => intro snap wp hlen hwp; simp [readSeq, hlen, hwp]
  | cons x t ih =>
    intro snap wp hlen hwp
    have hcap : 0 < cap := by omega
    have hstep : drainStep cap (snap, wp) x = (snap.set wp x, (wp + 1) % cap) := rfl
    have hlen' : (snap.set wp x).length = cap := by simp [hlen]
    have hwp' : (wp + 1) % cap < cap := Nat.mod_lt _ hcap
    have ihr := ih (snap.set wp x) ((wp + 1) % cap) hlen' hwp'
    simp only [List.foldl_cons, hstep]
    refine ⟨?_, ihr.2.1, ihr.2.2⟩
    rw [ihr.1, readSeq_set_step cap snap wp x hlen hwp]
    have hS : (readSeq cap snap wp).length = cap := readSeq_length cap snap wp
    have h1 : (readSeq cap snap wp).drop 1 ++ [x] ++ t
        = ((readSeq cap snap wp) ++ (x :: t)).drop 1 := by
      rw [List.drop_append_of_le_length (by omega)]
      simp
    rw [h1, List.drop_drop]
    congr 1
    simp
    omega

/-- pushAll only touches the ring and the counter; the ring grows by
repeated try_push and the counter by the number of pushed samples. -/
theorem pushAll_eq (xs : List XYSample) : ∀ (st : BufState),
    pushAll st xs
      = { st with ring := pushList st.ringCap st.ring xs,
                  samplesWritten := st.samplesWritten + xs.length } := by
  induction xs with
  | nil => intro st; simp [pushAll, pushList]
  | cons x t ih =>
    intro st
    simp only [pushAll, List.foldl_cons] at *
    rw [ih (SampleProducer.push st x)]
    simp [SampleProducer.push, pushList]
    omega

/-- When everything fits, repeated try_push is plain concatenation. -/
theorem pushList_all_fit (cap : Nat) (xs : List XYSample) :
    ∀ (r : List XYSample), r.length + xs.length ≤ cap →
      pushList cap r xs = r ++ xs := by
  induction xs with
  | nil => intro r h; simp [pushList]
  | cons x t ih =>
    intro r h
    simp only [pushList, List.foldl_cons]
    have hrlt : r.length < cap := by simp at h; omega
    have hx : tryPush cap r x = r ++ [x] := by simp [tryPush, hrlt]
    rw [hx]
    have := ih (r ++ [x]) (by simp at h ⊢; omega)
    simp only [pushList] at this
    rw [this]
    simp

/-- Repeated try_push into an empty ring keeps the first cap pushes and
drops the overflow (the newest elements), never reordering. -/
theorem pushList_take (cap : Nat) (xs : List XYSample) :
    ∀ (r : List XYSample), r.length ≤ cap →
      pushList cap r xs = r ++ xs.take (cap - r.length) := by
  induction xs with
  | nil => intro r h; simp [pushList]
  | cons x t ih =>
    intro r h
    simp only [pushList, List.foldl_cons]
    by_cases hfull : r.length < cap
    · have hx : tryPush cap r x = r ++ [x] := by simp [tryPush, hfull]
      rw [hx]
      have := ih (r ++ [x]) (by simp; omega)
      simp only [pushList] at this
      rw [this]
      have hc : cap - r.length = (cap - (r.length + 1)) + 1 := by omega
      simp [hc, List.take_succ_cons]
    · have hx : tryPush cap r x = r := by simp [tryPush, hfull]
      have hr : cap - r.length = 0 := by omega
      rw [hx]
      have := ih r h
      simp only [pushList] at this
      rw [this, hr]
      simp [hr]

/-- The try_push fold inside push_slice only grows the ring. -/
theorem pushFold_eq (xs : List XYSample) : ∀ (st : BufState),
    xs.foldl (fun a s => { a with ring := tryPush a.ringCap a.ring s }) st
      = { st with ring := pushList st.ringCap st.ring xs } := by
  induction xs with
  | nil => intro st; simp [pushList]
  | cons x t ih =>
    intro st
    simp only [List.foldl_cons]
    rw [ih]
    simp [pushList]

/-- push_slice in closed form: try_push everything, then bump the
counter by the slice length. -/
theorem pushSlice_eq (st : BufState) (xs : List XYSample) :
    SampleProducer.pushSlice st xs
      = { st with ring := pushList st.ringCap st.ring xs,
                  samplesWritten := st.samplesWritten + xs.length } := by
  simp only [SampleProducer.pushSlice, pushFold_eq]

/-- No buffer operation ever decreases the shared counter. -/
theorem apply_counter_mono (st : BufState) (op : BufOp) :
    st.samplesWritten ≤ (BufOp.apply st op).samplesWritten := by
  cases op with
  | push s => simp [BufOp.apply, SampleProducer.push]
  | pushSlice xs => simp [BufOp.apply, pushSlice_eq]
  | update => simp [BufOp.apply, SampleConsumer.update]
  | takeProducer => simp [BufOp.apply, SampleBuffer.takeProducer]
  | takeConsumer => simp [BufOp.apply, SampleBuffer.takeConsumer]
  | compatPush s =>
    simp only [BufOp.apply, SampleBuffer.push]
    split
    · simp [SampleProducer.push]
    · simp
  | compatGet =>
    simp only [BufOp.apply, SampleBuffer.getSamples]
    split
    · simp [SampleConsumer.update]
    · simp

/-- Counter monotonicity over any sequence of operations. -/
theorem runOps_counter_mono (ops : List BufOp) : ∀ (st : BufState),
    st.samplesWritten ≤ (runOps st ops).samplesWritten := by
  induction ops with
  | nil => intro st; simp [runOps]
  | cons op t ih =>
    intro st
    simp only [runOps, List.foldl_cons]
    exact le_trans (apply_counter_mono st op) (ih (BufOp.apply st op))

/-- The state of a fresh buffer of capacity c after both handles were
taken, written out in full. -/
theorem split_state (c : Nat) :
    (SampleBuffer.takeConsumer ((SampleBuffer.takeProducer (SampleBuffer.new c)).2)).2
      = { ringCap := c * 2
          ring := []
          samplesWritten := 0
          snapshot := List.replicate c XYSample.zero
          capacity := c
          writePos := 0
          producerSlot := false
          consumerSlot := false } := rfl

/-! ### Claim theorems -/

/-- C1: for every capacity C ≥ 1, pushing exactly C samples through the
taken producer handle of a fresh SampleBuffer and then running the
consumer's update makes get_samples return exactly the C pushed samples
in push order. -/
theorem C1_fill_to_capacity_roundtrip (C : Nat) (xs : List XYSample)
    (hC : 1 ≤ C) (hlen : xs.length = C) :
    SampleConsumer.getSamples (SampleConsumer.update (pushAll
        ((SampleBuffer.takeConsumer
          ((SampleBuffer.takeProducer (SampleBuffer.new C)).2)).2) xs))
      = xs := by
  rw [split_state]
  rw [pushAll_eq]
  have hfit : pushList (C * 2) [] xs = [] ++ xs :=
    pushList_all_fit (C * 2) xs [] (by simp [hlen]; omega)
  simp only [List.nil_append] at hfit
  simp only [SampleConsumer.update, SampleConsumer.getSamples, hfit]
  have hd := drain_foldl C xs (List.replicate C XYSample.zero) 0
    (by simp) (by omega)
  simp only at hd ⊢
  rw [hd.1]
  have h1 : xs.length = (readSeq C (List.replicate C XYSample.zero) 0).length := by
    rw [readSeq_length, hlen]
  rw [h1, List.drop_left]

/-- C1 witness at C = 2. -/
theorem C1_fill_to_capacity_roundtrip_witness :
    1 ≤ 2 ∧ ([XYSample.new 1 1, XYSample.new 2 2] : List XYSample).length = 2 ∧
    SampleConsumer.getSamples (SampleConsumer.update (pushAll
        ((SampleBuffer.takeConsumer
          ((SampleBuffer.takeProducer (SampleBuffer.new 2)).2)).2)
        [XYSample.new 1 1, XYSample.new 2 2]))
      = [XYSample.new 1 1, XYSample.new 2 2] :=
  ⟨by decide, by decide,
    C1_fill_to_capacity_roundtrip 2 [XYSample.new 1 1, XYSample.new 2 2]
      (by decide) (by decide)⟩

/-- C2 counterexample: with capacity 1 (ring capacity 2) and 3 pushed
samples, the ring drops the NEWEST sample on overflow, so the read-back
is the middle sample, not a suffix of the push sequence. -/
theorem C2_suffix_counterexample :
    ¬ List.IsSuffix
      (SampleConsumer.getSamples (SampleConsumer.update (pushAll
        ((SampleBuffer.takeConsumer
          ((SampleBuffer.takeProducer (SampleBuffer.new 1)).2)).2)
        [XYSample.new 1 1, XYSample.new 2 2, XYSample.new 3 3])))
      [XYSample.new 1 1, XYSample.new 2 2, XYSample.new 3 3] := by decide

/-- C2 amended: the suffix property holds exactly while the pushes fit
into the ring channel, i.e. for C < N ≤ 2C; get_samples then returns
the last C pushed samples in order (a suffix of the push sequence).
Beyond 2C pushes the ring drops the newest samples, so only a
contiguous in-order run, not a suffix, is kept. -/
theorem C2_overflow_keeps_ordered_suffix (C : Nat) (xs : List XYSample)
    (hC : 1 ≤ C) (hgt : C < xs.length) (hle : xs.length ≤ 2 * C) :
    SampleConsumer.getSamples (SampleConsumer.update (pushAll
        ((SampleBuffer.takeConsumer
          ((SampleBuffer.takeProducer (SampleBuffer.new C)).2)).2) xs))
      = xs.drop (xs.length - C) ∧
    (xs.drop (xs.length - C)).length = C ∧
    xs.drop (xs.length - C) <:+ xs := by
  refine ⟨?_, by simp; omega, List.drop_suffix _ _⟩
  rw [split_state, pushAll_eq]
  have hfit : pushList (C * 2) [] xs = [] ++ xs :=
    pushList_all_fit (C * 2) xs [] (by simp; omega)
  simp only [List.nil_append] at hfit
  simp only [SampleConsumer.update, SampleConsumer.getSamples, hfit]
  have hd := drain_foldl C xs (List.replicate C XYSample.zero) 0
    (by simp) (by omega)
  simp only at hd ⊢
  rw [hd.1]
  have hsplitN : xs.length
      = (readSeq C (List.replicate C XYSample.zero) 0).length + (xs.length - C) := by
    rw [readSeq_length]; omega
  rw [hsplitN, List.drop_append, readSeq_length]
  congr 1
  omega

/-- C2 amended witness at C = 2, N = 3. -/
theorem C2_overflow_keeps_ordered_suffix_witness :
    (1 ≤ 2 ∧ 2 < 3 ∧ 3 ≤ 2 * 2) ∧
    SampleConsumer.getSamples (SampleConsumer.update (pushAll
        ((SampleBuffer.takeConsumer
          ((SampleBuffer.takeProducer (SampleBuffer.new 2)).2)).2)
        [XYSample.new 1 1, XYSample.new 2 2, XYSample.new 3 3]))
      = [XYSample.new 2 2, XYSample.new 3 3] :=
  ⟨by decide,
    by
      have h := C2_overflow_keeps_ordered_suffix 2
        [XYSample.new 1 1, XYSample.new 2 2, XYSample.new 3 3]
        (by decide) (by decide) (by decide)
      exact h.1⟩

/-- C9: reading the snapshot is non-destructive and decoupled from the
producer: get_samples is unchanged by any pushes performed after the
last update (via push, push_slice or repeated push), so two consecutive
reads with no intervening update agree even across producer activity. -/
theorem C9_read_is_nondestructive (st : BufState) (x : XYSample)
    (xs : List XYSample) :
    SampleConsumer.getSamples (SampleProducer.push st x)
        = SampleConsumer.getSamples st ∧
    SampleConsumer.getSamples (SampleProducer.pushSlice st xs)
        = SampleConsumer.getSamples st ∧
    SampleConsumer.getSamples (pushAll st xs)
        = SampleConsumer.getSamples st := by
  refine ⟨?_, ?_, ?_⟩
  · simp [SampleProducer.push, SampleConsumer.getSamples]
  · rw [pushSlice_eq]
    simp [SampleConsumer.getSamples]
  · rw [pushAll_eq]
    simp [SampleConsumer.getSamples]

/-- C4: pushing into a full ring channel is a total, non-failing
operation: the sample is silently dropped (the ring is unchanged) yet
the counter still increments by one; push_slice adds the slice length
to the counter; and the counter never decreases under any sequence of
buffer operations. -/
theorem C4_full_push_drops_and_counts (st : BufState) (s : XYSample)
    (xs : List XYSample) (ops : List BufOp)
    (hfull : st.ring.length = st.ringCap) :
    (SampleProducer.push st s).ring = st.ring ∧
    (SampleProducer.push st s).samplesWritten = st.samplesWritten + 1 ∧
    (SampleProducer.pushSlice st xs).samplesWritten
        = st.samplesWritten + xs.length ∧
    st.samplesWritten ≤ (runOps st ops).samplesWritten := by
  refine ⟨?_, rfl, ?_, runOps_counter_mono ops st⟩
  · simp [SampleProducer.push, tryPush, hfull]
  · rw [pushSlice_eq]

/-- C4 witness: a concretely full ring (capacity 1, ring capacity 2,
two samples already pushed). -/
theorem C4_full_push_drops_and_counts_witness :
    (pushAll (SampleBuffer.new 1)
        [XYSample.new 1 1, XYSample.new 2 2]).ring.length
      = (pushAll (SampleBuffer.new 1)
          [XYSample.new 1 1, XYSample.new 2 2]).ringCap ∧
    ((SampleProducer.push (pushAll (SampleBuffer.new 1)
        [XYSample.new 1 1, XYSample.new 2 2]) (XYSample.new 3 3)).ring
      = (pushAll (SampleBuffer.new 1)
          [XYSample.new 1 1, XYSample.new 2 2]).ring ∧
    (SampleProducer.push (pushAll (SampleBuffer.new 1)
        [XYSample.new 1 1, XYSample.new 2 2]) (XYSample.new 3 3)).samplesWritten
      = (pushAll (SampleBuffer.new 1)
          [XYSample.new 1 1, XYSample.new 2 2]).samplesWritten + 1 ∧
    (SampleProducer.pushSlice (pushAll (SampleBuffer.new 1)
        [XYSample.new 1 1, XYSample.new 2 2])
        [XYSample.new 4 4, XYSample.new 5 5]).samplesWritten
      = (pushAll (SampleBuffer.new 1)
          [XYSample.new 1 1, XYSample.new 2 2]).samplesWritten + 2 ∧
    (pushAll (SampleBuffer.new 1)
        [XYSample.new 1 1, XYSample.new 2 2]).samplesWritten
      ≤ (runOps (pushAll (SampleBuffer.new 1)
          [XYSample.new 1 1, XYSample.new 2 2])
          [BufOp.update, BufOp.compatGet]).samplesWritten) :=
  ⟨by decide,
    C4_full_push_drops_and_counts
      (pushAll (SampleBuffer.new 1) [XYSample.new 1 1, XYSample.new 2 2])
      (XYSample.new 3 3)
      [XYSample.new 4 4, XYSample.new 5 5]
      [BufOp.update, BufOp.compatGet]
      (by decide)⟩

/-- C5: on a fresh buffer the first take of each handle succeeds; after
any take of a handle, a further take of the same handle returns none;
and a previously taken producer handle keeps working (its push still
bumps the shared counter and its ring write still lands). -/
theorem C5_handles_taken_at_most_once (c : Nat) (st : BufState)
    (x : XYSample) :
    (SampleBuffer.takeProducer (SampleBuffer.new c)).1 = some () ∧
    (SampleBuffer.takeConsumer (SampleBuffer.new c)).1 = some () ∧
    (SampleBuffer.takeProducer (SampleBuffer.takeProducer st).2).1 = none ∧
    (SampleBuffer.takeConsumer (SampleBuffer.takeConsumer st).2).1 = none ∧
    (SampleProducer.push (SampleBuffer.takeProducer st).2 x).samplesWritten
        = st.samplesWritten + 1 ∧
    (SampleProducer.push (SampleBuffer.takeProducer st).2 x).ring
        = tryPush st.ringCap st.ring x := by
  refine ⟨rfl, rfl, rfl, rfl, rfl, rfl⟩

/-- C6 counterexample: push (1,1) and read it back through the
compatibility API (the snapshot read is then [(1,1)]); after the
consumer handle is taken, the compatibility get_samples returns the
default-filled vector [(0,0)], not the last successfully read
snapshot. -/
theorem C6_stale_snapshot_counterexample :
    (SampleBuffer.getSamples
        (SampleBuffer.takeConsumer
          (SampleBuffer.getSamples
            (SampleBuffer.push (SampleBuffer.new 1) (XYSample.new 1 1)).2).2).2).1
      ≠ (SampleBuffer.getSamples
          (SampleBuffer.push (SampleBuffer.new 1) (XYSample.new 1 1)).2).1 := by
  decide

/-- C6 amended: with the producer handle held elsewhere, the
compatibility push is a no-op returning false; with the consumer handle
held elsewhere, the compatibility get_samples leaves the buffer
untouched and returns a capacity-length vector of default (0,0)
samples — not the last successfully read snapshot. -/
theorem C6_compat_fallbacks (st st2 : BufState) (s : XYSample)
    (hp : st.producerSlot = false) (hc : st2.consumerSlot = false) :
    SampleBuffer.push st s = (false, st) ∧
    (SampleBuffer.getSamples st2).1
        = List.replicate st2.capacity XYSample.zero ∧
    (SampleBuffer.getSamples st2).2 = st2 := by
  refine ⟨?_, ?_, ?_⟩
  · simp [SampleBuffer.push, hp]
  · simp [SampleBuffer.getSamples, hc]
  · simp [SampleBuffer.getSamples, hc]

/-- C6 amended witness: both handles taken from a fresh buffer of
capacity 2. -/
theorem C6_compat_fallbacks_witness :
    ((SampleBuffer.takeConsumer
        ((SampleBuffer.takeProducer (SampleBuffer.new 2)).2)).2.producerSlot
      = false ∧
    (SampleBuffer.takeConsumer
        ((SampleBuffer.takeProducer (SampleBuffer.new 2)).2)).2.consumerSlot
      = false) ∧
    (SampleBuffer.push
        (SampleBuffer.takeConsumer
          ((SampleBuffer.takeProducer (SampleBuffer.new 2)).2)).2
        (XYSample.new 7 7)
      = (false, (SampleBuffer.takeConsumer
          ((SampleBuffer.takeProducer (SampleBuffer.new 2)).2)).2) ∧
    (SampleBuffer.getSamples
        (SampleBuffer.takeConsumer
          ((SampleBuffer.takeProducer (SampleBuffer.new 2)).2)).2).1
      = List.replicate
          (SampleBuffer.takeConsumer
            ((SampleBuffer.takeProducer (SampleBuffer.new 2)).2)).2.capacity
          XYSample.zero ∧
    (SampleBuffer.getSamples
        (SampleBuffer.takeConsumer
          ((SampleBuffer.takeProducer (SampleBuffer.new 2)).2)).2).2
      = (SampleBuffer.takeConsumer
          ((SampleBuffer.takeProducer (SampleBuffer.new 2)).2)).2) :=
  ⟨⟨by decide, by decide⟩,
    C6_compat_fallbacks
      (SampleBuffer.takeConsumer
        ((SampleBuffer.takeProducer (SampleBuffer.new 2)).2)).2
      (SampleBuffer.takeConsumer
        ((SampleBuffer.takeProducer (SampleBuffer.new 2)).2)).2
      (XYSample.new 7 7) (by decide) (by decide)⟩

/-- C3 counterexample: a successful load followed by a load that fails
at File::open leaves the previous file's info in place — load never
clears `info` on failure, so the player does NOT end with no loaded
file. -/
theorem C3_failed_load_keeps_info_counterexample :
    (AudioFilePlayer.load
        (AudioFilePlayer.load AudioFilePlayer.new "a.wav"
          (Except.ok
            { filename := "a.wav", sample_rate := 44100, channels := 2,
              duration := 1, n_frames := 44100, formatName := "PCM" })
          (Except.ok [])).2
        "missing.wav"
        (Except.error (FileError.IoError "No such file"))
        (Except.ok [])).1
      = Except.error (FileError.IoError "No such file") ∧
    (AudioFilePlayer.load
        (AudioFilePlayer.load AudioFilePlayer.new "a.wav"
          (Except.ok
            { filename := "a.wav", sample_rate := 44100, channels := 2,
              duration := 1, n_frames := 44100, formatName := "PCM" })
          (Except.ok [])).2
        "missing.wav"
        (Except.error (FileError.IoError "No such file"))
        (Except.ok [])).2.info.isSome = true := by
  exact ⟨rfl, rfl⟩

/-- C3 amended: a failing load returns the error but never clears
`info`.  When the error occurs at open/probe/track-selection, the
previous info (if any) is retained, with playback stopped and the
position reset; when the error occurs in waveform generation, the NEW
file's metadata is already installed in `info` despite the error. -/
theorem C3_load_error_keeps_info (p : AudioFilePlayer) (path : String)
    (e : FileError) (md : ProbedMeta)
    (w : Except FileError (List (ℚ × ℚ))) :
    (AudioFilePlayer.load p path (Except.error e) w).1 = Except.error e ∧
    (AudioFilePlayer.load p path (Except.error e) w).2.info = p.info ∧
    (AudioFilePlayer.load p path (Except.error e) w).2.state
        = PlaybackState.Stopped ∧
    (AudioFilePlayer.load p path (Except.error e) w).2.position = 0 ∧
    (AudioFilePlayer.load p path (Except.ok md) (Except.error e)).1
        = Except.error e ∧
    (AudioFilePlayer.load p path (Except.ok md) (Except.error e)).2.info
        = some { path := path, filename := md.filename,
                 duration := md.duration, sample_rate := md.sample_rate,
                 channels := md.channels, format := md.formatName } := by
  refine ⟨rfl, rfl, rfl, rfl, rfl, rfl⟩

/-- C7: seek clamps the fraction to [0, 1] and stores the floor of
total_frame_count times the clamped fraction; position_fraction right
after a seek is the clamped fraction up to a defect of less than one
frame (1 / total_frame_count).  The f32 arithmetic of the source is
modelled as exact rational arithmetic. -/
theorem C7_seek_clamped_floor (p : AudioFilePlayer) (f : ℚ)
    (h : p.total_samples ≠ 0) :
    (p.seek f).position
        = (⌊(p.total_samples : ℚ) * (max 0 (min f 1))⌋).toNat ∧
    (p.seek f).position_fraction ≤ max 0 (min f 1) ∧
    max 0 (min f 1) - 1 / (p.total_samples : ℚ)
        < (p.seek f).position_fraction := by
  have hT : (0 : ℚ) < (p.total_samples : ℚ) := by
    exact_mod_cast Nat.pos_of_ne_zero h
  have hTne : (p.total_samples : ℚ) ≠ 0 := ne_of_gt hT
  have hc0 : (0 : ℚ) ≤ max 0 (min f 1) := le_max_left 0 _
  have hfl : (0 : ℤ) ≤ ⌊(p.total_samples : ℚ) * (max 0 (min f 1))⌋ :=
    Int.floor_nonneg.mpr (mul_nonneg hT.le hc0)
  have hcast :
      (((⌊(p.total_samples : ℚ) * (max 0 (min f 1))⌋).toNat : ℕ) : ℚ)
        = ((⌊(p.total_samples : ℚ) * (max 0 (min f 1))⌋ : ℤ) : ℚ) := by
    exact_mod_cast congrArg (fun z : ℤ => (z : ℚ)) (Int.toNat_of_nonneg hfl)
  have hfrac : (p.seek f).position_fraction
      = (((⌊(p.total_samples : ℚ) * (max 0 (min f 1))⌋).toNat : ℕ) : ℚ)
          / (p.total_samples : ℚ) := by
    simp [AudioFilePlayer.seek, AudioFilePlayer.position_fraction, h]
  have h1 : (((⌊(p.total_samples : ℚ) * (max 0 (min f 1))⌋).toNat : ℕ) : ℚ)
      ≤ (p.total_samples : ℚ) * (max 0 (min f 1)) := by
    rw [hcast]; exact Int.floor_le _
  have h2 : (p.total_samples : ℚ) * (max 0 (min f 1))
      < (((⌊(p.total_samples : ℚ) * (max 0 (min f 1))⌋).toNat : ℕ) : ℚ) + 1 := by
    rw [hcast]; exact Int.lt_floor_add_one _
  refine ⟨rfl, ?_, ?_⟩
  · rw [hfrac, div_le_iff₀ hT]
    calc (((⌊(p.total_samples : ℚ) * (max 0 (min f 1))⌋).toNat : ℕ) : ℚ)
        ≤ (p.total_samples : ℚ) * (max 0 (min f 1)) := h1
      _ = (max 0 (min f 1)) * (p.total_samples : ℚ) := mul_comm _ _
  · rw [hfrac, sub_lt_iff_lt_add, div_add_div_same, lt_div_iff₀ hT]
    have hmul : (max 0 (min f 1)) * (p.total_samples : ℚ)
        = (p.total_samples : ℚ) * (max 0 (min f 1)) := mul_comm _ _
    nlinarith [h2]

/-- C7 witness: a player with 4 total frames, seek to one half. -/
theorem C7_seek_clamped_floor_witness :
    ({ AudioFilePlayer.new with total_samples := 4 }
        : AudioFilePlayer).total_samples ≠ 0 ∧
    (({ AudioFilePlayer.new with total_samples := 4 }
        : AudioFilePlayer).seek (1/2)).position
        = (⌊((({ AudioFilePlayer.new with total_samples := 4 }
            : AudioFilePlayer).total_samples : ℚ))
              * (max 0 (min (1/2 : ℚ) 1))⌋).toNat ∧
    (({ AudioFilePlayer.new with total_samples := 4 }
        : AudioFilePlayer).seek (1/2)).position_fraction
        ≤ max 0 (min (1/2 : ℚ) 1) ∧
    max 0 (min (1/2 : ℚ) 1)
        - 1 / ((({ AudioFilePlayer.new with total_samples := 4 }
            : AudioFilePlayer).total_samples : ℚ))
        < (({ AudioFilePlayer.new with total_samples := 4 }
            : AudioFilePlayer).seek (1/2)).position_fraction :=
  ⟨by decide,
    C7_seek_clamped_floor
      { AudioFilePlayer.new with total_samples := 4 } (1/2) (by decide)⟩

/-- C8: from any prior state, stop clears the running flag, forces the
state to Stopped and resets the position counter to zero, so the
reported position duration is zero. -/
theorem C8_stop_resets_player (p : AudioFilePlayer)
    (h : p.sample_rate ≠ 0) :
    (p.stop).is_running = false ∧
    (p.stop).state = PlaybackState.Stopped ∧
    (p.stop).position = 0 ∧
    (p.stop).position_duration = 0 := by
  refine ⟨rfl, rfl, rfl, ?_⟩
  simp [AudioFilePlayer.stop, AudioFilePlayer.position_duration]

/-- C8 witness: stopping a freshly created player (and, via the ∀, any
other). -/
theorem C8_stop_resets_player_witness :
    AudioFilePlayer.new.sample_rate ≠ 0 ∧
    (AudioFilePlayer.new.stop.is_running = false ∧
    AudioFilePlayer.new.stop.state = PlaybackState.Stopped ∧
    AudioFilePlayer.new.stop.position = 0 ∧
    AudioFilePlayer.new.stop.position_duration = 0) :=
  ⟨by decide, C8_stop_resets_player AudioFilePlayer.new (by decide)⟩

/-- C10: position_fraction never divides by zero — with no loaded file
or a zero frame count it returns exactly 0, and in particular a freshly
constructed player reports 0. -/
theorem C10_position_fraction_guarded (p : AudioFilePlayer)
    (h : p.total_samples = 0) :
    p.position_fraction = 0 ∧ AudioFilePlayer.new.position_fraction = 0 := by
  constructor
  · simp [AudioFilePlayer.position_fraction, h]
  · simp [AudioFilePlayer.position_fraction, AudioFilePlayer.new]

/-- C10 witness: the freshly constructed player itself. -/
theorem C10_position_fraction_guarded_witness :
    AudioFilePlayer.new.total_samples = 0 ∧
    (AudioFilePlayer.new.position_fraction = 0 ∧
      AudioFilePlayer.new.position_fraction = 0) :=
  ⟨by decide, C10_position_fraction_guarded AudioFilePlayer.new (by decide)⟩

end ScopeRs
